import Mathlib

/-!
Verification of the voice_meter speech-analysis core.

This file shallowly embeds the algorithmic parts of the repository:

* `difflib.SequenceMatcher` as used by the text comparator
  (`backend/app/services/transcription_service.py`),
* the acoustic analyzer (`backend/app/services/speech_analyzer.py`),
* the transcript-based speech-analysis services
  (`speech_analysis_service.py`, `speech_analysis_service_v2.py`),
* the control flow of the `/analyze` endpoint
  (`backend/app/api/endpoints/speech.py`).

Python floats are modelled by exact rationals (`Rat`), real-valued
square roots (numpy `std`) by `Real.sqrt`.  `int(x)` on a non-negative
value is modelled by `Int.floor`, and Python's `round(x, n)` by
rounding `x * 10^n` to the nearest integer.
-/

namespace VoiceMeter

/-! ## difflib.SequenceMatcher

`compare_texts` uses `difflib.SequenceMatcher` on character strings and
on word lists.  We embed the matcher generically over a type with
decidable equality.

`find_longest_match` (no junk, autojunk irrelevant at these sizes)
returns, among all maximal matching blocks, the one that starts
earliest in `a` and then earliest in `b`.  We embed that specification
directly: scan every pair of start positions in order and keep the
first strictly longer common extension.
-/

/-- Length of the longest common prefix of two lists. -/
def commonPrefixLen {α : Type} [DecidableEq α] : List α → List α → Nat
  | x :: xs, y :: ys => if x = y then commonPrefixLen xs ys + 1 else 0
  | _, _ => 0

/-- One candidate step of `find_longest_match`: the common extension at
start positions `(i, j)` replaces the current best only when strictly
longer. -/
def flmStep {α : Type} [DecidableEq α] (a b : List α) (i : Nat)
    (best : Nat × Nat × Nat) (j : Nat) : Nat × Nat × Nat :=
  let k := commonPrefixLen (a.drop i) (b.drop j)
  if best.2.2 < k then (i, j, k) else best

/-- Python `find_longest_match` over whole lists: the longest matching block
`(i, j, size)`, ties broken by smallest `i`, then smallest `j`.
`size = 0` means no common element. -/
def findLongestMatch {α : Type} [DecidableEq α] (a b : List α) : Nat × Nat × Nat :=
  (List.range a.length).foldl
    (fun best i => (List.range b.length).foldl (flmStep a b i) best)
    (0, 0, 0)

/-- Recursive collection of matching blocks (difflib `get_matching_blocks`
before sorting/merging), with global offsets `oa`, `ob`.  The fuel is
only to satisfy the termination checker; `a.length + b.length + 1` is
always sufficient because each recursive call strictly shrinks the
combined length. -/
def matchingBlocksAux {α : Type} [DecidableEq α] :
    Nat → List α → List α → Nat → Nat → List (Nat × Nat × Nat)
  | 0, _, _, _, _ => []
  | fuel + 1, a, b, oa, ob =>
    let m := findLongestMatch a b
    let i := m.1
    let j := m.2.1
    let k := m.2.2
    if k = 0 then []
    else
      matchingBlocksAux fuel (a.take i) (b.take j) oa ob
        ++ (oa + i, ob + j, k) ::
          matchingBlocksAux fuel (a.drop (i + k)) (b.drop (j + k)) (oa + i + k) (ob + j + k)

/-- Loop of difflib's merge of adjacent blocks: `cur` is the pending
block, merged into when the next block is adjacent in both sequences. -/
def mergeAdjacentGo : Nat × Nat × Nat → List (Nat × Nat × Nat) → List (Nat × Nat × Nat)
  | cur, [] => [cur]
  | (i1, j1, k1), (i2, j2, k2) :: rest =>
    if i1 + k1 = i2 ∧ j1 + k1 = j2 then
      mergeAdjacentGo (i1, j1, k1 + k2) rest
    else
      (i1, j1, k1) :: mergeAdjacentGo (i2, j2, k2) rest

/-- difflib's merge of adjacent blocks in the sorted block list. -/
def mergeAdjacent : List (Nat × Nat × Nat) → List (Nat × Nat × Nat)
  | [] => []
  | x :: xs => mergeAdjacentGo x xs

/-- Python `get_matching_blocks`: merged blocks plus the terminal
`(len a, len b, 0)` sentinel. -/
def matchingBlocks {α : Type} [DecidableEq α] (a b : List α) : List (Nat × Nat × Nat) :=
  mergeAdjacent (matchingBlocksAux (a.length + b.length + 1) a b 0 0)
    ++ [(a.length, b.length, 0)]

/-- Total number of matched elements across all matching blocks. -/
def sumSizes (blocks : List (Nat × Nat × Nat)) : Nat :=
  (blocks.map (fun b => b.2.2)).sum

/-- Python `SequenceMatcher.ratio()`: `2*M/T`, and `1.0` when both sequences
are empty. -/
def seqSimilarity {α : Type} [DecidableEq α] (a b : List α) : ℚ :=
  let total := a.length + b.length
  if total = 0 then 1
  else (2 * (sumSizes (matchingBlocks a b)) : ℚ) / (total : ℚ)

/-! ### Basic facts about the matcher -/

theorem commonPrefixLen_le_left {α : Type} [DecidableEq α] :
    ∀ a b : List α, commonPrefixLen a b ≤ a.length := by
  intro a
  induction a with
  | nil => intro b; cases b <;> simp [commonPrefixLen]
  | cons x xs ih =>
    intro b
    cases b with
    | nil => simp [commonPrefixLen]
    | cons y ys =>
      by_cases h : x = y
      · simpa [commonPrefixLen, h] using ih ys
      · simp [commonPrefixLen, h]

theorem commonPrefixLen_le_right {α : Type} [DecidableEq α] :
    ∀ a b : List α, commonPrefixLen a b ≤ b.length := by
  intro a
  induction a with
  | nil => intro b; cases b <;> simp [commonPrefixLen]
  | cons x xs ih =>
    intro b
    cases b with
    | nil => simp [commonPrefixLen]
    | cons y ys =>
      by_cases h : x = y
      · simpa [commonPrefixLen, h] using ih ys
      · simp [commonPrefixLen, h]

/-- A fold preserves any invariant preserved by its step function on
elements of the list. -/
theorem foldl_invariant {β γ : Type} (P : β → Prop) (f : β → γ → β)
    (l : List γ) (init : β) (h0 : P init)
    (hf : ∀ b a, a ∈ l → P b → P (f b a)) :
    P (l.foldl f init) := by
  induction l generalizing init with
  | nil => simpa using h0
  | cons x xs ih =>
    exact ih (f init x) (hf init x (List.mem_cons_self x xs) h0)
      (fun b a ha hb => hf b a (List.mem_cons_of_mem x ha) hb)

/-- The block returned by `findLongestMatch` lies inside both lists. -/
theorem findLongestMatch_valid {α : Type} [DecidableEq α] (a b : List α) :
    (findLongestMatch a b).1 + (findLongestMatch a b).2.2 ≤ a.length ∧
      (findLongestMatch a b).2.1 + (findLongestMatch a b).2.2 ≤ b.length := by
  unfold findLongestMatch
  apply foldl_invariant
    (P := fun best : Nat × Nat × Nat =>
      best.1 + best.2.2 ≤ a.length ∧ best.2.1 + best.2.2 ≤ b.length)
  · simp
  · intro best i hi hbest
    have hia : i < a.length := List.mem_range.mp hi
    apply foldl_invariant
      (P := fun best : Nat × Nat × Nat =>
        best.1 + best.2.2 ≤ a.length ∧ best.2.1 + best.2.2 ≤ b.length)
    · exact hbest
    · intro cur j hj hcur
      have hjb : j < b.length := List.mem_range.mp hj
      unfold flmStep
      dsimp only
      split
      · refine ⟨?_, ?_⟩
        · show i + commonPrefixLen (a.drop i) (b.drop j) ≤ a.length
          have hk := commonPrefixLen_le_left (a.drop i) (b.drop j)
          rw [List.length_drop] at hk
          omega
        · show j + commonPrefixLen (a.drop i) (b.drop j) ≤ b.length
          have hk := commonPrefixLen_le_right (a.drop i) (b.drop j)
          rw [List.length_drop] at hk
          omega
      · exact hcur

/-- The matched total of the raw recursive block list is at most the
length of the first sequence. -/
theorem sumSizes_matchingBlocksAux_le_left {α : Type} [DecidableEq α] :
    ∀ (fuel : Nat) (a b : List α) (oa ob : Nat),
      sumSizes (matchingBlocksAux fuel a b oa ob) ≤ a.length := by
  intro fuel
  induction fuel with
  | zero => intro a b oa ob; simp [matchingBlocksAux, sumSizes]
  | succ n ih =>
    intro a b oa ob
    rw [matchingBlocksAux]
    set m := findLongestMatch a b with hm
    by_cases hk : m.2.2 = 0
    · simp [hk, sumSizes]
    · have hvalid := findLongestMatch_valid a b
      rw [← hm] at hvalid
      simp only [hk, if_false, sumSizes, List.map_append, List.map_cons,
        List.sum_append, List.sum_cons]
      have h1 := ih (a.take m.1) (b.take m.2.1) oa ob
      have h2 := ih (a.drop (m.1 + m.2.2)) (b.drop (m.2.1 + m.2.2))
        (oa + m.1 + m.2.2) (ob + m.2.1 + m.2.2)
      simp only [sumSizes] at h1 h2
      have hta : (a.take m.1).length ≤ m.1 := by
        simp [List.length_take]
      have hda : (a.drop (m.1 + m.2.2)).length = a.length - (m.1 + m.2.2) := by
        simp [List.length_drop]
      rw [hda] at h2
      omega

/-- Same bound for the second sequence. -/
theorem sumSizes_matchingBlocksAux_le_right {α : Type} [DecidableEq α] :
    ∀ (fuel : Nat) (a b : List α) (oa ob : Nat),
      sumSizes (matchingBlocksAux fuel a b oa ob) ≤ b.length := by
  intro fuel
  induction fuel with
  | zero => intro a b oa ob; simp [matchingBlocksAux, sumSizes]
  | succ n ih =>
    intro a b oa ob
    rw [matchingBlocksAux]
    set m := findLongestMatch a b with hm
    by_cases hk : m.2.2 = 0
    · simp [hk, sumSizes]
    · have hvalid := findLongestMatch_valid a b
      rw [← hm] at hvalid
      simp only [hk, if_false, sumSizes, List.map_append, List.map_cons,
        List.sum_append, List.sum_cons]
      have h1 := ih (a.take m.1) (b.take m.2.1) oa ob
      have h2 := ih (a.drop (m.1 + m.2.2)) (b.drop (m.2.1 + m.2.2))
        (oa + m.1 + m.2.2) (ob + m.2.1 + m.2.2)
      simp only [sumSizes] at h1 h2
      have htb : (b.take m.2.1).length ≤ m.2.1 := by
        simp [List.length_take]
      have hdb : (b.drop (m.2.1 + m.2.2)).length = b.length - (m.2.1 + m.2.2) := by
        simp [List.length_drop]
      rw [hdb] at h2
      omega

/-- The merge loop preserves the matched total. -/
theorem sumSizes_mergeAdjacentGo : ∀ (l : List (Nat × Nat × Nat)) (cur : Nat × Nat × Nat),
    sumSizes (mergeAdjacentGo cur l) = cur.2.2 + sumSizes l := by
  intro l
  induction l with
  | nil => intro cur; simp [mergeAdjacentGo, sumSizes]
  | cons x xs ih =>
    intro cur
    obtain ⟨i1, j1, k1⟩ := cur
    obtain ⟨i2, j2, k2⟩ := x
    rw [mergeAdjacentGo]
    split
    · rw [ih]
      simp only [sumSizes, List.map_cons, List.sum_cons]
      try omega
    · simp only [sumSizes, List.map_cons, List.sum_cons] at ih ⊢
      rw [ih]
      try omega

/-- Merging adjacent blocks preserves the matched total. -/
theorem sumSizes_mergeAdjacent : ∀ l : List (Nat × Nat × Nat),
    sumSizes (mergeAdjacent l) = sumSizes l := by
  intro l
  cases l with
  | nil => rfl
  | cons x xs =>
    rw [mergeAdjacent, sumSizes_mergeAdjacentGo]
    simp [sumSizes]

/-- Matched total over `get_matching_blocks` is bounded by either length. -/
theorem sumSizes_matchingBlocks_le_left {α : Type} [DecidableEq α] (a b : List α) :
    sumSizes (matchingBlocks a b) ≤ a.length := by
  unfold matchingBlocks
  simp only [sumSizes, List.map_append, List.sum_append]
  have h := sumSizes_matchingBlocksAux_le_left (a.length + b.length + 1) a b 0 0
  have hm := sumSizes_mergeAdjacent (matchingBlocksAux (a.length + b.length + 1) a b 0 0)
  simp only [sumSizes] at h hm
  simp [hm, h]

theorem sumSizes_matchingBlocks_le_right {α : Type} [DecidableEq α] (a b : List α) :
    sumSizes (matchingBlocks a b) ≤ b.length := by
  unfold matchingBlocks
  simp only [sumSizes, List.map_append, List.sum_append]
  have h := sumSizes_matchingBlocksAux_le_right (a.length + b.length + 1) a b 0 0
  have hm := sumSizes_mergeAdjacent (matchingBlocksAux (a.length + b.length + 1) a b 0 0)
  simp only [sumSizes] at h hm
  simp [hm, h]

/-- Python `ratio()` always lies in `[0, 1]`. -/
theorem seqSimilarity_mem_unit {α : Type} [DecidableEq α] (a b : List α) :
    0 ≤ seqSimilarity a b ∧ seqSimilarity a b ≤ 1 := by
  unfold seqSimilarity
  by_cases h : a.length + b.length = 0
  · simp [h]
  · simp only [h, if_false]
    have hpos : (0 : ℚ) < (a.length + b.length : ℕ) := by
      exact_mod_cast Nat.pos_of_ne_zero h
    constructor
    · positivity
    · rw [div_le_one hpos]
      have h1 := sumSizes_matchingBlocks_le_left a b
      have h2 := sumSizes_matchingBlocks_le_right a b
      have : 2 * sumSizes (matchingBlocks a b) ≤ a.length + b.length := by omega
      exact_mod_cast this

/-! ### The matcher on constant (replicated) sequences

Closed forms used to evaluate the embedding on long constant strings,
where direct kernel computation is too deep. -/

theorem commonPrefixLen_replicate {α : Type} [DecidableEq α] (c : α) :
    ∀ m n : Nat, commonPrefixLen (List.replicate m c) (List.replicate n c) = min m n := by
  intro m
  induction m with
  | zero => intro n; simp [commonPrefixLen]
  | succ k ih =>
    intro n
    cases n with
    | zero => simp [commonPrefixLen]
    | succ l =>
      rw [List.replicate_succ, List.replicate_succ]
      show (if c = c then commonPrefixLen (List.replicate k c) (List.replicate l c) + 1 else 0)
        = min (k + 1) (l + 1)
      rw [if_pos rfl, ih]
      omega

theorem foldl_fixed_of {β γ : Type} (f : β → γ → β) (l : List γ) (init : β)
    (hf : ∀ a, a ∈ l → f init a = init) : l.foldl f init = init := by
  induction l with
  | nil => rfl
  | cons x xs ih =>
    rw [List.foldl_cons, hf x (List.mem_cons_self x xs)]
    exact ih (fun a ha => hf a (List.mem_cons_of_mem x ha))

/-- A candidate step never changes a best whose size already dominates
the candidate extension. -/
theorem flmStep_fixed {α : Type} [DecidableEq α] (a b : List α) (i j : Nat)
    (best : Nat × Nat × Nat)
    (h : commonPrefixLen (a.drop i) (b.drop j) ≤ best.2.2) :
    flmStep a b i best j = best := by
  unfold flmStep
  simp only [not_lt.mpr h, if_false]

/-- On two constant runs of the same element, the longest match starts
at the origin and has the length of the shorter run. -/
theorem findLongestMatch_replicate {α : Type} [DecidableEq α] (c : α) (m n : Nat)
    (hm : 0 < m) (hn : 0 < n) :
    findLongestMatch (List.replicate m c) (List.replicate n c) = (0, 0, min m n) := by
  have hext : ∀ i j : Nat,
      commonPrefixLen ((List.replicate m c).drop i) ((List.replicate n c).drop j)
        = min (m - i) (n - j) := by
    intro i j
    rw [List.drop_replicate, List.drop_replicate, commonPrefixLen_replicate]
  have hfix : ∀ i j : Nat,
      flmStep (List.replicate m c) (List.replicate n c) i (0, 0, min m n) j
        = (0, 0, min m n) := by
    intro i j
    apply flmStep_fixed
    rw [hext]
    show min (m - i) (n - j) ≤ min m n
    omega
  obtain ⟨m0, rfl⟩ : ∃ m0, m = m0 + 1 := ⟨m - 1, by omega⟩
  obtain ⟨n0, rfl⟩ : ∃ n0, n = n0 + 1 := ⟨n - 1, by omega⟩
  have hinner : (List.range (n0 + 1)).foldl
      (flmStep (List.replicate (m0 + 1) c) (List.replicate (n0 + 1) c) 0) (0, 0, 0)
        = (0, 0, min (m0 + 1) (n0 + 1)) := by
    rw [List.range_succ_eq_map, List.foldl_cons]
    have h00 : flmStep (List.replicate (m0 + 1) c) (List.replicate (n0 + 1) c) 0 (0, 0, 0) 0
        = (0, 0, min (m0 + 1) (n0 + 1)) := by
      unfold flmStep
      rw [hext]
      simp only [Nat.sub_zero]
      have hlt : ((0, 0, 0) : Nat × Nat × Nat).2.2 < min (m0 + 1) (n0 + 1) := by
        show 0 < min (m0 + 1) (n0 + 1)
        omega
      simp only [hlt, if_true]
    rw [h00]
    exact foldl_fixed_of _ _ _ (fun j _ => hfix 0 j)
  unfold findLongestMatch
  simp only [List.length_replicate]
  rw [show List.range (m0 + 1) = 0 :: (List.range m0).map Nat.succ from
    List.range_succ_eq_map m0, List.foldl_cons]
  show (List.foldl (fun best i => (List.range (n0 + 1)).foldl
      (flmStep (List.replicate (m0 + 1) c) (List.replicate (n0 + 1) c) i) best))
    ((List.range (n0 + 1)).foldl
      (flmStep (List.replicate (m0 + 1) c) (List.replicate (n0 + 1) c) 0) (0, 0, 0))
    ((List.range m0).map Nat.succ) = (0, 0, min (m0 + 1) (n0 + 1))
  rw [hinner]
  exact foldl_fixed_of _ _ _
    (fun i _ => foldl_fixed_of _ _ _ (fun j _ => hfix i j))

theorem findLongestMatch_nil_left {α : Type} [DecidableEq α] (b : List α) :
    findLongestMatch ([] : List α) b = (0, 0, 0) := by
  unfold findLongestMatch
  simp

theorem findLongestMatch_nil_right {α : Type} [DecidableEq α] (a : List α) :
    findLongestMatch a ([] : List α) = (0, 0, 0) := by
  unfold findLongestMatch
  simp only [List.length_nil, List.range_zero, List.foldl_nil]
  exact foldl_fixed_of _ _ _ (fun i _ => rfl)

theorem matchingBlocksAux_nil_left {α : Type} [DecidableEq α] :
    ∀ (fuel : Nat) (b : List α) (oa ob : Nat),
      matchingBlocksAux fuel ([] : List α) b oa ob = [] := by
  intro fuel b oa ob
  cases fuel with
  | zero => rfl
  | succ k =>
    rw [matchingBlocksAux]
    rw [findLongestMatch_nil_left]
    rfl

theorem matchingBlocksAux_nil_right {α : Type} [DecidableEq α] :
    ∀ (fuel : Nat) (a : List α) (oa ob : Nat),
      matchingBlocksAux fuel a ([] : List α) oa ob = [] := by
  intro fuel a oa ob
  cases fuel with
  | zero => rfl
  | succ k =>
    rw [matchingBlocksAux]
    rw [findLongestMatch_nil_right]
    rfl

/-- Python `get_matching_blocks` on two constant runs, longer run first:
a single block of the shorter length plus the terminal sentinel. -/
theorem matchingBlocks_replicate {α : Type} [DecidableEq α] (c : α) (m n : Nat)
    (hm : 0 < n) (hmn : n ≤ m) :
    matchingBlocks (List.replicate m c) (List.replicate n c)
      = [(0, 0, n), (m, n, 0)] := by
  unfold matchingBlocks
  have hflm := findLongestMatch_replicate c m n (by omega) hm
  have hmin : min m n = n := by omega
  rw [hmin] at hflm
  simp only [List.length_replicate]
  rw [show m + n + 1 = (m + n) + 1 from rfl, matchingBlocksAux]
  rw [hflm]
  have hn0 : ¬ (((0 : Nat), (0 : Nat), n) : Nat × Nat × Nat).2.2 = 0 := by
    show ¬ n = 0
    omega
  simp only [hn0, if_false]
  rw [List.take_zero, List.take_zero, matchingBlocksAux_nil_left]
  rw [List.drop_replicate, List.drop_replicate]
  have hd2 : n - (0 + n) = 0 := by omega
  rw [hd2]
  rw [show List.replicate 0 c = ([] : List α) from rfl, matchingBlocksAux_nil_right]
  simp [mergeAdjacent, mergeAdjacentGo]

/-- Python `ratio()` of two constant runs of the same element, longer first. -/
theorem seqSimilarity_replicate {α : Type} [DecidableEq α] (c : α) (m n : Nat)
    (hm : 0 < n) (hmn : n ≤ m) :
    seqSimilarity (List.replicate m c) (List.replicate n c)
      = (2 * (n : ℚ)) / ((m : ℚ) + (n : ℚ)) := by
  unfold seqSimilarity
  simp only [List.length_replicate]
  have h1 : ¬ m + n = 0 := by omega
  simp only [h1, if_false]
  rw [matchingBlocks_replicate c m n hm hmn]
  simp [sumSizes]

/-! ## Opcodes (difflib `get_opcodes`) -/

/-- Opcode tags of difflib `get_opcodes`. -/
inductive Tag
  | replace
  | delete
  | insert
  | equal
deriving DecidableEq, Repr

/-- One opcode `(tag, i1, i2, j1, j2)`. -/
structure Opcode where
  tag : Tag
  i1 : Nat
  i2 : Nat
  j1 : Nat
  j2 : Nat
deriving DecidableEq, Repr

/-- The opcode walk over the matching blocks: each block `(ai, bj, k)`
first emits the gap `(i..ai, j..bj)` as replace/delete/insert, then the
equal block itself when non-empty. -/
def opcodesWalk : Nat → Nat → List (Nat × Nat × Nat) → List Opcode
  | _, _, [] => []
  | i, j, (ai, bj, k) :: rest =>
    (if i < ai ∧ j < bj then [⟨Tag.replace, i, ai, j, bj⟩]
     else if i < ai then [⟨Tag.delete, i, ai, j, bj⟩]
     else if j < bj then [⟨Tag.insert, i, ai, j, bj⟩]
     else [])
      ++ (if k ≠ 0 then [⟨Tag.equal, ai, ai + k, bj, bj + k⟩] else [])
      ++ opcodesWalk (ai + k) (bj + k) rest

/-- Python `SequenceMatcher.get_opcodes()`. -/
def getOpcodes {α : Type} [DecidableEq α] (a b : List α) : List Opcode :=
  opcodesWalk 0 0 (matchingBlocks a b)

/-! ## Rounding helpers

Python's `round(x, n)` is modelled as rounding `x * 10^n` to the
nearest integer (the model uses exact rational arithmetic; ties are
rounded half-up by Mathlib's `round`, which agrees with Python away
from exact halves).  `int(x)` on a non-negative value is `⌊x⌋`. -/

def roundTo (n : Nat) (x : ℚ) : ℚ := ((round (x * 10 ^ n) : ℤ) : ℚ) / 10 ^ n

/-! ## Text normalization and comparison
(`transcription_service.py`)

`normalize_text` lowercases, removes `[^\w\s]`, and collapses
whitespace.  We model the ASCII fragment of Python's `\w`
(alphanumerics and underscore); all inputs appearing in the theorems
below lie in this fragment. -/

def isWordChar (c : Char) : Bool := c.isAlphanum || c = '_'

/-- Python's `str.split()`: maximal non-whitespace runs. -/
def pySplit (s : List Char) : List (List Char) :=
  (s.splitOnP (fun c => c.isWhitespace)).filter (fun w => w ≠ [])

/-- Python `TranscriptionService.normalize_text`. -/
def normalizeText (s : String) : String :=
  let lowered := s.data.map Char.toLower
  let stripped := lowered.filter (fun c => isWordChar c || c.isWhitespace)
  String.intercalate (" ") ((pySplit stripped).map (fun w => String.mk w))

/-- Word list of a normalized text (`.split()` in `compare_texts`). -/
def splitWords (s : String) : List String :=
  (pySplit s.data).map (fun w => String.mk w)

/-- Python `TranscriptionService._calculate_word_accuracy`. -/
def wordAccuracy (expected transcribed : List String) : ℚ :=
  if expected = [] then (if transcribed = [] then 1 else 0)
  else ((sumSizes (matchingBlocks expected transcribed) : ℕ) : ℚ) / (expected.length : ℚ)

/-- Levenshtein edit distance (the external `Levenshtein.distance`
collaborator; unit-cost insert/delete/substitute). -/
def levenshtein {α : Type} [DecidableEq α] : List α → List α → Nat
  | [], bs => bs.length
  | as, [] => as.length
  | a :: as, b :: bs =>
    if a = b then levenshtein as bs
    else 1 + min (levenshtein as (b :: bs)) (min (levenshtein (a :: as) bs) (levenshtein as bs))
termination_by as bs => as.length + bs.length
decreasing_by all_goals simp_wf <;> omega

/-- One entry of `differences["mispronounced"]`. -/
structure MispronouncedWord where
  expected : String
  heard : String
  similarity : ℚ
deriving DecidableEq, Repr

/-- The three difference lists of `_find_differences`. -/
structure Differences where
  missing : List String
  extra : List String
  mispronounced : List MispronouncedWord
deriving DecidableEq, Repr

/-- The best-candidate scan inside the `replace` branch of
`_find_differences`: fold over the transcribed chunk keeping the first
strictly-greater ratio (`best_match`, `best_ratio`). -/
def bestCandidate (w : String) (chunk : List String) : Option String × ℚ :=
  chunk.foldl
    (fun best tw =>
      let r := seqSimilarity w.data tw.data
      if best.2 < r then (some tw, r) else best)
    (none, 0)

/-- Python truthiness of `best_match : Optional[str]`. -/
def optStrTruthy : Option String → Bool
  | none => false
  | some s => s ≠ ""

/-- Processing of a single opcode in `_find_differences`. -/
def diffStep (e t : List String) (acc : Differences) (op : Opcode) : Differences :=
  match op.tag with
  | Tag.delete =>
    { acc with missing := acc.missing ++ (e.drop op.i1).take (op.i2 - op.i1) }
  | Tag.insert =>
    { acc with extra := acc.extra ++ (t.drop op.j1).take (op.j2 - op.j1) }
  | Tag.replace =>
    let echunk := (e.drop op.i1).take (op.i2 - op.i1)
    let tchunk := (t.drop op.j1).take (op.j2 - op.j1)
    echunk.foldl
      (fun acc w =>
        let best := bestCandidate w tchunk
        if optStrTruthy best.1 ∧ 1/2 < best.2 then
          { acc with mispronounced :=
              acc.mispronounced ++ [⟨w, best.1.getD "", roundTo 2 best.2⟩] }
        else
          { acc with missing := acc.missing ++ [w] })
      acc
  | Tag.equal => acc

/-- Python `TranscriptionService._find_differences`. -/
def findDifferences (e t : List String) : Differences :=
  (getOpcodes e t).foldl (diffStep e t) ⟨[], [], []⟩

/-- The fields of the `compare_texts` result needed by the claims. -/
structure TextComparisonResult where
  expectedNormalized : String
  transcribedNormalized : String
  similarityRounded : ℚ          -- `round(similarity_ratio, 4)`
  pronunciationScore : ℤ          -- `int(similarity_ratio * 100)`
  levenshteinDistance : Nat
  wordAccuracyRounded : ℚ        -- `round(word_accuracy, 4)`
  expectedWordCount : Nat
  transcribedWordCount : Nat
  missingWords : List String
  extraWords : List String
  mispronouncedWords : List MispronouncedWord
deriving DecidableEq, Repr

/-- Python `TranscriptionService.compare_texts`. -/
def compareTexts (expectedText transcribedText : String) : TextComparisonResult :=
  let en := normalizeText expectedText
  let tn := normalizeText transcribedText
  let ew := splitWords en
  let tw := splitWords tn
  let r := seqSimilarity en.data tn.data
  let d := findDifferences ew tw
  { expectedNormalized := en
    transcribedNormalized := tn
    similarityRounded := roundTo 4 r
    pronunciationScore := ⌊r * 100⌋
    levenshteinDistance := levenshtein en.data tn.data
    wordAccuracyRounded := roundTo 4 (wordAccuracy ew tw)
    expectedWordCount := ew.length
    transcribedWordCount := tw.length
    missingWords := d.missing
    extraWords := d.extra
    mispronouncedWords := d.mispronounced }

/-! ## Acoustic analyzer (`speech_analyzer.py`)

Onset detection and RMS energy come from librosa (an external
collaborator); the analyzer's arithmetic is embedded from the point
where the onset counts, durations and the VAD mask are known.
Decimal constants are written as fractions (`2.7 = 27/10`, …). -/

/-- Raw (pre-clamp) rate of `_estimate_words_per_minute`:
`(n / 2.7) / (duration / 60)`, `0` when the duration is not positive. -/
def estimateWpmRaw (numSyllables : Nat) (duration : ℚ) : ℚ :=
  let numWords : ℚ := (numSyllables : ℚ) / (27/10)
  let durationMinutes := duration / 60
  if 0 < durationMinutes then numWords / durationMinutes else 0

/-- Python `_estimate_words_per_minute` (SR) with the plausibility clamps. -/
def estimateWpm (numSyllables : Nat) (duration : ℚ) : ℚ :=
  let wpm := estimateWpmRaw numSyllables duration
  if wpm < 50 then max 80 (wpm * 2)
  else if 250 < wpm then min 200 (wpm * (8/10))
  else wpm

/-- Density-dependent syllables-per-word constant of
`_calculate_articulation_rate`. -/
def syllablesPerWord (density : ℚ) : ℚ :=
  if 4 < density then 18/10
  else if 3 < density then 22/10
  else if density < 3/2 then 3
  else 27/10

/-- Raw AR estimate from a syllable count and a calculation duration:
onset density picks the syllables-per-word constant, then
`(n / spw) / (duration / 60)` (`0` when the duration is not positive). -/
def densityAdjustedWpm (numSyllables : Nat) (calcDuration : ℚ) : ℚ :=
  let density := (numSyllables : ℚ) / calcDuration
  let spw := syllablesPerWord density
  let numWords := (numSyllables : ℚ) / spw
  let durationMinutes := calcDuration / 60
  if 0 < durationMinutes then numWords / durationMinutes else 0

/-- The hybrid onset selection and raw rate of
`_calculate_articulation_rate` (before the plausibility clamps):
retention is `active/total` (`1.0` when no onsets), and the direct
(all-onsets) method is used exactly when `speech_ratio < 0.4` and
retention `< 0.5`; both methods divide by the active duration. -/
def calculateArticulationRateRaw (totalOnsets activeOnsets : Nat)
    (activeDuration speechFrac : ℚ) : ℚ :=
  let retention : ℚ :=
    if 0 < totalOnsets then (activeOnsets : ℚ) / (totalOnsets : ℚ) else 1
  let numSyllables :=
    if speechFrac < 2/5 ∧ retention < 1/2 then totalOnsets else activeOnsets
  densityAdjustedWpm numSyllables activeDuration

/-- Python `_calculate_articulation_rate`: guard for very short active
duration, raw rate, then the density-aware plausibility clamps. -/
def calculateArticulationRate (totalOnsets activeOnsets : Nat)
    (activeDuration totalDuration speechFrac : ℚ) : ℚ :=
  if activeDuration < 1/2 then 0
  else
    let raw := calculateArticulationRateRaw totalOnsets activeOnsets activeDuration speechFrac
    let totalOnsetDensity := (totalOnsets : ℚ) / totalDuration
    if raw < 50 then
      if totalOnsetDensity < 2 then max 80 (raw * (5/2))
      else max 80 (raw * (18/10))
    else if 250 < raw then min 220 (raw * (85/100))
    else raw

/-- One silence segment of `_analyze_pauses` (`start`, `end`,
`duration`; `end` is spelled `stop`). -/
structure PauseSegment where
  start : ℚ
  stop : ℚ
  duration : ℚ
deriving DecidableEq, Repr

/-- State of the silence-segment walk over the VAD mask. -/
structure VadWalkState where
  inSilence : Bool
  silenceStart : ℚ
  segs : List PauseSegment
deriving DecidableEq, Repr

/-- One step of the walk in `_analyze_pauses`: enter silence on a
speech→silence transition, close the segment on silence→speech and
keep it only when longer than 100 ms. -/
def pauseStep (acc : VadWalkState) (ft : Bool × ℚ) : VadWalkState :=
  let isSpeech := ft.1
  let t := ft.2
  if ¬ isSpeech ∧ ¬ acc.inSilence then
    { acc with inSilence := true, silenceStart := t }
  else if isSpeech ∧ acc.inSilence then
    let d := t - acc.silenceStart
    { inSilence := false, silenceStart := acc.silenceStart,
      segs := acc.segs ++ (if 1/10 < d then [⟨acc.silenceStart, t, d⟩] else []) }
  else acc

/-- The silence segments collected by `_analyze_pauses` from the VAD
mask and the frame→time mapping. -/
def findSilenceSegments (frames : List Bool) (times : List ℚ) : List PauseSegment :=
  ((frames.zip times).foldl pauseStep ⟨false, 0, []⟩).segs

/-- Result record of `_analyze_pauses` (`silence_ratio` is spelled
`silenceFrac`). -/
structure PauseAnalysisVad where
  segments : List PauseSegment
  totalPauses : Nat
  avgPauseDuration : ℚ
  silenceFrac : ℚ
  shortPauses : Nat
  mediumPauses : Nat
  longPauses : Nat
deriving DecidableEq, Repr

/-- Python `SpeechAnalyzer._analyze_pauses`. -/
def analyzePausesVad (frames : List Bool) (times : List ℚ) (speechFrac : ℚ) :
    PauseAnalysisVad :=
  let segs := findSilenceSegments frames times
  { segments := segs
    totalPauses := segs.length
    avgPauseDuration :=
      if segs = [] then 0 else ((segs.map (fun s => s.duration)).sum) / (segs.length : ℚ)
    silenceFrac := 1 - speechFrac
    shortPauses := (segs.filter (fun s => s.duration < 1/2)).length
    mediumPauses := (segs.filter (fun s => 1/2 ≤ s.duration ∧ s.duration < 1)).length
    longPauses := (segs.filter (fun s => 1 ≤ s.duration)).length }

/-- Window-local AR estimates of `_analyze_local_pacing`: windows of 15
onsets starting every 7 onsets below `len - 15`; windows shorter than 2
are skipped, and a rate is produced only for positive window duration. -/
def localRates (onsets : List ℚ) : List ℚ :=
  let numWindows := (onsets.length - 15 + 6) / 7
  ((List.range numWindows).map (fun w => 7 * w)).filterMap (fun i =>
    let window := (onsets.drop i).take 15
    if window.length < 2 then none
    else
      let d := window.getLast?.getD 0 - window.head?.getD 0
      if 0 < d then
        some ((((window.length : ℚ) / (27/10)) / d) * 60)
      else none)

/-- Python `np.mean` of the local rates. -/
def pacingMean (rates : List ℚ) : ℚ := rates.sum / (rates.length : ℚ)

/-- Population variance (`np.std` squared) of the local rates. -/
def pacingVariance (rates : List ℚ) : ℚ :=
  ((rates.map (fun r => (r - pacingMean rates) ^ 2)).sum) / (rates.length : ℚ)

/-- Python `np.std` of the local rates. -/
noncomputable def pacingStd (rates : List ℚ) : ℝ :=
  Real.sqrt ((pacingVariance rates : ℚ) : ℝ)

/-- Python `variation_coefficient = std / mean * 100 if mean > 0 else 0`. -/
noncomputable def variationCoefficientOf (rates : List ℚ) : ℝ :=
  if 0 < pacingMean rates then
    pacingStd rates / ((pacingMean rates : ℚ) : ℝ) * 100
  else 0

/-- Result record of `_analyze_local_pacing` (claims-relevant fields). -/
structure PacingResult where
  consistencyScore : ℝ
  hasSignificantVariation : Prop
  localWindowRates : List ℚ
  variationCoefficient : ℝ

/-- Python `SpeechAnalyzer._analyze_local_pacing` over the detected onset
times: short-circuits to a perfect score below 20 onsets (and when no
window produces a rate), otherwise scores by coefficient of variation. -/
noncomputable def analyzeLocalPacing (onsets : List ℚ) : PacingResult :=
  if onsets.length < 20 then ⟨100, False, [], 0⟩
  else
    let rates := localRates onsets
    if rates = [] then ⟨100, False, [], 0⟩
    else
      let vc := variationCoefficientOf rates
      ⟨max 0 (100 - vc * 3), vc > 20, rates, vc⟩

/-- Python `SpeechAnalyzer._estimate_intelligibility`. -/
noncomputable def estimateIntelligibility (arWpm : ℚ) (consistencyScore : ℝ)
    (silenceFrac : ℚ) : ℝ :=
  let base : ℝ := 100
  let afterRate :=
    if 400 < arWpm then base * (3/10)
    else if 250 < arWpm then base * (6/10)
    else if 200 < arWpm then base * (85/100)
    else if arWpm < 80 then base * (9/10)
    else base
  let consistencyPenalty := (100 - consistencyScore) / 100
  let afterPacing := afterRate * (1 - consistencyPenalty * (3/10))
  let afterPauses :=
    if silenceFrac < 1/10 then afterPacing * (85/100)
    else if 2/5 < silenceFrac then afterPacing * (9/10)
    else afterPacing
  max 0 (min 100 afterPauses)

/-- Second definition, written from the specification's words (§4.6):
start at 100, multiply by the AR penalty (>400→×0.3, >250→×0.6,
>200→×0.85, <80→×0.9), by `1 − 0.3·(100 − consistency)/100`, and by the
silence-ratio penalty (<0.10→×0.85, >0.40→×0.90); clamp to [0, 100]. -/
noncomputable def specIntelligibility (arWpm : ℚ) (consistencyScore : ℝ)
    (silenceFrac : ℚ) : ℝ :=
  let rateFactor : ℝ :=
    if 400 < arWpm then 3/10
    else if 250 < arWpm then 6/10
    else if 200 < arWpm then 85/100
    else if arWpm < 80 then 9/10
    else 1
  let pacingFactor : ℝ := 1 - (3/10) * ((100 - consistencyScore) / 100)
  let pauseFactor : ℝ :=
    if silenceFrac < 1/10 then 85/100
    else if 2/5 < silenceFrac then 9/10
    else 1
  max 0 (min 100 (100 * rateFactor * pacingFactor * pauseFactor))

/-! ## Transcript-based speech-rate service
(`speech_analysis_service.py`)

The text itself enters `analyze_speech_rate` only through the word and
syllable counts of `_extract_words` / `count_syllables_text`, so the
embedding takes those counts as inputs. -/

/-- One transcription segment (`{text, start, end}`; timing only). -/
structure Seg where
  start : ℚ
  stop : ℚ
deriving DecidableEq, Repr

/-- Python `_extract_pauses`: gaps between consecutive segment boundaries that
reach the minimum pause duration. -/
def extractPauses (minPause : ℚ) (segments : List Seg) : List ℚ :=
  if segments.length < 2 then []
  else ((segments.zip segments.tail).map (fun p => p.2.start - p.1.stop)).filter
    (fun g => minPause ≤ g)

/-- Classification of `analyze_speech_rate`. -/
inductive RateClass
  | slow
  | medium
  | fast
deriving DecidableEq, Repr

/-- Result record of `analyze_speech_rate`. -/
structure SpeechRateMetricsV1 where
  speakingRateSpm : ℚ
  articulationRateSpm : ℚ
  wordsPerMinute : ℚ
  totalDurationSeconds : ℚ
  speechDurationSeconds : ℚ
  pauseDurationSeconds : ℚ
  classification : RateClass
deriving DecidableEq, Repr

/-- Python `SpeechAnalysisService.analyze_speech_rate` (v1 service):
`total_duration <= 0` is replaced by `1.0`, the speech duration is
floored at `0.1`, rates are syllables (words) per minute, and the
classification uses the 180/250 syllable-per-minute thresholds. -/
def analyzeSpeechRate (totalWords totalSyllables : Nat) (totalDuration : ℚ)
    (segments : List Seg) : SpeechRateMetricsV1 :=
  let td := if totalDuration ≤ 0 then 1 else totalDuration
  let pauses := extractPauses (1/4) segments
  let pauseDuration := pauses.sum
  let speechDuration := max (1/10) (td - pauseDuration)
  let speakingRateSpm := ((totalSyllables : ℚ) / td) * 60
  let articulationRateSpm := ((totalSyllables : ℚ) / speechDuration) * 60
  let wordsPerMinute := ((totalWords : ℚ) / td) * 60
  let classification :=
    if articulationRateSpm < 180 then RateClass.slow
    else if 250 < articulationRateSpm then RateClass.fast
    else RateClass.medium
  { speakingRateSpm := roundTo 1 speakingRateSpm
    articulationRateSpm := roundTo 1 articulationRateSpm
    wordsPerMinute := roundTo 1 wordsPerMinute
    totalDurationSeconds := roundTo 2 td
    speechDurationSeconds := roundTo 2 speechDuration
    pauseDurationSeconds := roundTo 2 pauseDuration
    classification := classification }

/-! ## Segment-based pause analyzer (v2 service,
`speech_analysis_service_v2.py`) -/

/-- Result record of the v2 `analyze_pauses` (`pause_ratio` is spelled
`pauseFrac`). -/
structure PauseMetricsV2 where
  totalPauses : Nat
  shortPauses : Nat
  mediumPauses : Nat
  longPauses : Nat
  extendedPauses : Nat
  averagePauseDuration : ℚ
  totalPauseTime : ℚ
  pauseFrac : ℚ
deriving DecidableEq, Repr

/-- Python `SpeechAnalysisService.analyze_pauses` (v2 service): pauses are the
segment gaps of at least 250 ms, classified by the constants
`PAUSE_THRESHOLD_SHORT = 0.5`, `PAUSE_THRESHOLD_MEDIUM = 1.0`,
`PAUSE_THRESHOLD_LONG = 2.0`. -/
def analyzePausesV2 (totalDuration : ℚ) (segments : List Seg) : PauseMetricsV2 :=
  let pauses := extractPauses (1/4) segments
  let total := pauses.length
  let totalPauseTime := pauses.sum
  { totalPauses := total
    shortPauses := (pauses.filter (fun p => p < 1/2)).length
    mediumPauses := (pauses.filter (fun p => 1/2 ≤ p ∧ p < 1)).length
    longPauses := (pauses.filter (fun p => 1 ≤ p ∧ p < 2)).length
    extendedPauses := (pauses.filter (fun p => 2 ≤ p)).length
    averagePauseDuration := roundTo 3 (if 0 < total then totalPauseTime / (total : ℚ) else 0)
    totalPauseTime := roundTo 2 totalPauseTime
    pauseFrac := roundTo 3 (if 0 < totalDuration then totalPauseTime / totalDuration else 0) }

/-! ## `/analyze` endpoint control flow
(`backend/app/api/endpoints/speech.py`, `analyze_speech`)

The collaborators (acoustic analyzer, Whisper transcription, advanced
analysis, database commit) are modelled as `Except` outcomes; the
endpoint's branching, the inner `try/except` around transcription, and
the score computation are embedded from the source.

Modelled from the spec: the volume-over-time helper
(`SpeechAnalyzer.calculate_volume_over_time`, called at line 208) is
not present under the analyzer's source; the spec treats such
presentation plumbing as an external collaborator, so it is modelled as
a total step whose output flows only into the persisted record (folded
into the database outcome here). -/

/-- The analyzer result dict of `analyze_audio_file`, as consumed by
the endpoint (`silence_ratio` is spelled `silenceFrac`). -/
structure AcousticResult where
  category : String
  wordsPerMinute : ℚ
  speechRate : ℚ
  articulationRate : ℚ
  idealMinPpm : ℚ
  idealMaxPpm : ℚ
  durationSeconds : ℚ
  isWithinRange : Bool
  activeSpeechTime : ℚ
  silenceFrac : ℚ
  pauseCount : Nat
  avgPauseDuration : ℚ
  pacingConsistency : ℚ
  localVariationDetected : Bool
  intelligibilityScore : ℚ
  feedback : String
  confidence : ℚ
deriving DecidableEq, Repr

/-- Output of the transcription collaborator. -/
structure TranscriptionOut where
  text : String
  segments : List Seg
  duration : ℚ
deriving DecidableEq, Repr

/-- Output of the advanced-analysis collaborator
(`analyze_comprehensive`), as used by the endpoint's scoring. -/
structure AdvancedOut where
  overallScore : ℚ
  recommendations : List String
  feedbackItems : List String
deriving DecidableEq, Repr

/-- HTTP error outcomes of the endpoint. -/
inductive HttpError
  | badRequest (msg : String)
  | internalError (msg : String)
deriving DecidableEq, Repr

/-- The endpoint's response record (claims-relevant fields: the
acoustic result plus the transcript-derived additions of lines
348–360). -/
structure AnalyzeResponse where
  acoustic : AcousticResult
  recordingId : Option Nat
  overallScore : ℤ
  expectedText : Option String
  transcribedText : Option String
  pronunciationScore : Option ℤ
  similarityRounded : Option ℚ
  wordAccuracyRounded : Option ℚ
  missingWords : Option (List String)
  extraWords : Option (List String)
  mispronouncedWords : Option (List MispronouncedWord)
  advancedAnalysis : Option AdvancedOut

/-- Python's `expected_text and expected_text.strip()` guard. -/
def expectedTextUsable : Option String → Bool
  | none => false
  | some s => ¬ (s = "") ∧ ¬ (s.trim = "")

/-- Python `analyze_speech`: reject empty audio, reject analyzer `ValueError`
as 400; then try transcription — on success run advanced analysis (its
own failure only drops the advanced block) and the comparison when
expected text was supplied, on failure continue with every
transcript-derived value `None`; compute the overall score; a database
failure only drops the recording id. -/
def analyzeSpeech (audioLen : Nat)
    (acoustic : Except String AcousticResult)
    (transcription : Except String TranscriptionOut)
    (advanced : TranscriptionOut → Except String AdvancedOut)
    (expectedText : Option String)
    (dbSave : Except String Nat) : Except HttpError AnalyzeResponse :=
  if audioLen = 0 then .error (.badRequest ("Audio file is empty"))
  else
    match acoustic with
    | .error e => .error (.badRequest e)
    | .ok r =>
      let stage :=
        match transcription with
        | .error _ => (none, none, none)
        | .ok t =>
          let adv := match advanced t with
            | .ok a => some a
            | .error _ => none
          let comp :=
            match expectedText with
            | some et =>
              if expectedTextUsable (some et) then some (compareTexts et t.text) else none
            | none => none
          (some t.text, adv, comp)
      let transcribedText : Option String := stage.1
      let advancedAnalysis : Option AdvancedOut := stage.2.1
      let comparison : Option TextComparisonResult := stage.2.2
      let pronunciation : Option ℤ := comparison.map (fun c => c.pronunciationScore)
      let score1 : ℚ :=
        match advancedAnalysis with
        | some a => a.overallScore * (1/2)
        | none => 50
      let score2 : ℚ :=
        match pronunciation with
        | some ps => score1 + (ps : ℚ) * (3/10)
        | none =>
          if r.isWithinRange then score1 + 15
          else
            let deviation :=
              min |r.articulationRate - r.idealMinPpm| |r.articulationRate - r.idealMaxPpm|
            score1 + max 0 (15 - deviation / 4)
      let score3 := score2 + r.intelligibilityScore / 100 * 10
      let score4 := score3 + r.pacingConsistency * 10
      let overall : ℤ := ⌊max 0 (min 100 score4)⌋
      let resp : Option Nat → AnalyzeResponse := fun rid =>
        { acoustic := r
          recordingId := rid
          overallScore := overall
          expectedText := expectedText
          transcribedText := transcribedText
          pronunciationScore := pronunciation
          similarityRounded := comparison.map (fun c => c.similarityRounded)
          wordAccuracyRounded := comparison.map (fun c => c.wordAccuracyRounded)
          missingWords := comparison.map (fun c => c.missingWords)
          extraWords := comparison.map (fun c => c.extraWords)
          mispronouncedWords := comparison.map (fun c => c.mispronouncedWords)
          advancedAnalysis := advancedAnalysis }
      match dbSave with
      | .ok rid => .ok (resp (some rid))
      | .error _ => .ok (resp none)

/-! ## Helper lemmas for the claim theorems -/

theorem roundTo_nonneg (n : Nat) (x : ℚ) (hx : 0 ≤ x) : 0 ≤ roundTo n x := by
  unfold roundTo
  apply div_nonneg _ (by positivity)
  have h1 : (0 : ℤ) ≤ round (x * 10 ^ n) := by
    rw [round_eq]
    have : (0 : ℚ) ≤ x * 10 ^ n + 1/2 := by positivity
    exact Int.floor_nonneg.mpr (by linarith)
  exact_mod_cast h1

theorem syllablesPerWord_pos (x : ℚ) : 0 < syllablesPerWord x := by
  unfold syllablesPerWord
  split_ifs <;> norm_num

theorem syllablesPerWord_anti {x y : ℚ} (h : x ≤ y) :
    syllablesPerWord y ≤ syllablesPerWord x := by
  unfold syllablesPerWord
  split_ifs <;> try norm_num
  all_goals linarith

theorem densityAdjustedWpm_mono (d : ℚ) (hd : 0 < d) {a b : Nat} (h : a ≤ b) :
    densityAdjustedWpm a d ≤ densityAdjustedWpm b d := by
  unfold densityAdjustedWpm
  have hdm : (0 : ℚ) < d / 60 := by positivity
  simp only [if_pos hdm]
  apply (div_le_div_right hdm).mpr
  have hcast : (a : ℚ) ≤ (b : ℚ) := by exact_mod_cast h
  have hdd : (a : ℚ) / d ≤ (b : ℚ) / d := (div_le_div_right hd).mpr hcast
  have hsp := syllablesPerWord_anti hdd
  have hp1 := syllablesPerWord_pos ((a : ℚ) / d)
  have hp2 := syllablesPerWord_pos ((b : ℚ) / d)
  calc (a : ℚ) / syllablesPerWord ((a : ℚ) / d)
      ≤ (b : ℚ) / syllablesPerWord ((a : ℚ) / d) := (div_le_div_right hp1).mpr hcast
    _ ≤ (b : ℚ) / syllablesPerWord ((b : ℚ) / d) :=
        div_le_div_of_nonneg_left (by positivity) hp2 hsp

theorem estimateWpmRaw_mono (d : ℚ) (hd : 0 < d) {a b : Nat} (h : a ≤ b) :
    estimateWpmRaw a d ≤ estimateWpmRaw b d := by
  unfold estimateWpmRaw
  have hdm : (0 : ℚ) < d / 60 := by positivity
  simp only [if_pos hdm]
  apply (div_le_div_right hdm).mpr
  apply (div_le_div_right (by norm_num : (0:ℚ) < 27/10)).mpr
  exact_mod_cast h

/-! ## Claim theorems -/

/-- C3: in the articulation-rate calculation, whenever the
active-speech ratio is below 0.4 and the VAD-filtered onset retention
ratio is below 0.5, the raw rate is computed from all detected onsets
over the active-speech duration (hybrid fallback); otherwise from only
the VAD-filtered onsets over the active-speech duration. -/
theorem C3_hybrid_fallback (totalOnsets activeOnsets : Nat)
    (activeDuration speechFrac : ℚ) :
    (speechFrac < 2/5 ∧
        (if 0 < totalOnsets then (activeOnsets : ℚ) / (totalOnsets : ℚ) else 1) < 1/2 →
      calculateArticulationRateRaw totalOnsets activeOnsets activeDuration speechFrac
        = densityAdjustedWpm totalOnsets activeDuration) ∧
    (¬ (speechFrac < 2/5 ∧
        (if 0 < totalOnsets then (activeOnsets : ℚ) / (totalOnsets : ℚ) else 1) < 1/2) →
      calculateArticulationRateRaw totalOnsets activeOnsets activeDuration speechFrac
        = densityAdjustedWpm activeOnsets activeDuration) := by
  constructor
  · intro h
    simp only [calculateArticulationRateRaw]
    rw [if_pos h]
  · intro h
    simp only [calculateArticulationRateRaw]
    rw [if_neg h]

/-- Witness for C3 at concrete inputs: 10 onsets of which 2 retained
(retention 0.2 < 0.5) with speech ratio 0.2 < 0.4 triggers the hybrid
fallback; retention 0.8 with the same speech ratio does not. -/
theorem C3_hybrid_fallback_witness :
    calculateArticulationRateRaw 10 2 1 (1/5) = densityAdjustedWpm 10 1 ∧
      calculateArticulationRateRaw 10 8 1 (1/5) = densityAdjustedWpm 8 1 := by
  constructor
  · exact (C3_hybrid_fallback 10 2 1 (1/5)).1 (by norm_num)
  · exact (C3_hybrid_fallback 10 8 1 (1/5)).2 (by norm_num)

/-- C5: the intelligibility estimate is a pure function of the
articulation rate, the consistency score and the silence ratio; it
equals the spec's product of penalty factors and always lies in
`[0, 100]`. -/
theorem C5_intelligibility (arWpm : ℚ) (consistencyScore : ℝ) (silenceFrac : ℚ) :
    estimateIntelligibility arWpm consistencyScore silenceFrac
        = specIntelligibility arWpm consistencyScore silenceFrac ∧
      0 ≤ estimateIntelligibility arWpm consistencyScore silenceFrac ∧
      estimateIntelligibility arWpm consistencyScore silenceFrac ≤ 100 := by
  refine ⟨?_, ?_, ?_⟩
  · unfold estimateIntelligibility specIntelligibility
    split_ifs <;> ring_nf
  · unfold estimateIntelligibility
    exact le_max_left 0 _
  · unfold estimateIntelligibility
    apply max_le (by norm_num)
    exact min_le_left 100 _

/-- C9: for a fixed calculation duration, increasing the onset count
never decreases the raw (pre-clamp) rate estimate, across the
density-dependent syllables-per-word bands (AR) and for the fixed-2.7
estimate (SR). -/
theorem C9_rate_monotone (d : ℚ) (a b : Nat) (hd : 0 < d) (hab : a ≤ b) :
    densityAdjustedWpm a d ≤ densityAdjustedWpm b d ∧
      estimateWpmRaw a d ≤ estimateWpmRaw b d :=
  ⟨densityAdjustedWpm_mono d hd hab, estimateWpmRaw_mono d hd hab⟩

/-- Witness for C9: 10 seconds, 14 versus 16 onsets (densities 1.4 and
1.6, crossing the `< 1.5` band boundary). -/
theorem C9_rate_monotone_witness :
    densityAdjustedWpm 14 10 ≤ densityAdjustedWpm 16 10 ∧
      estimateWpmRaw 14 10 ≤ estimateWpmRaw 16 10 :=
  C9_rate_monotone 10 14 16 (by norm_num) (by norm_num)

/-- C10: the transcript-based speech-rate analysis is total with
positive denominators — a non-positive total duration is replaced by
`1.0` and the speech duration is floored at `0.1 s` — and all three
reported rates are non-negative for every input. -/
theorem C10_speech_rate_safe (totalWords totalSyllables : Nat) (totalDuration : ℚ)
    (segments : List Seg) :
    (0 : ℚ) < (if totalDuration ≤ 0 then 1 else totalDuration) ∧
      (1/10 : ℚ) ≤ max (1/10)
        ((if totalDuration ≤ 0 then 1 else totalDuration)
          - (extractPauses (1/4) segments).sum) ∧
      0 ≤ (analyzeSpeechRate totalWords totalSyllables totalDuration segments).speakingRateSpm ∧
      0 ≤ (analyzeSpeechRate totalWords totalSyllables totalDuration segments).articulationRateSpm ∧
      0 ≤ (analyzeSpeechRate totalWords totalSyllables totalDuration segments).wordsPerMinute := by
  have htd : (0 : ℚ) < (if totalDuration ≤ 0 then 1 else totalDuration) := by
    split_ifs with h
    · norm_num
    · exact lt_of_not_le h
  have hsd : (1/10 : ℚ) ≤ max (1/10)
      ((if totalDuration ≤ 0 then 1 else totalDuration)
        - (extractPauses (1/4) segments).sum) := le_max_left _ _
  refine ⟨htd, hsd, ?_, ?_, ?_⟩ <;>
    · show 0 ≤ roundTo 1 _
      apply roundTo_nonneg
      apply mul_nonneg _ (by norm_num)
      apply div_nonneg (Nat.cast_nonneg _)
      first
        | exact le_of_lt htd
        | exact le_trans (by norm_num) hsd

/-- C1 (amended): the text comparator's `pronunciation_score` equals
`int(similarity_ratio * 100)`, i.e. the floor (truncation) of
`similarity_ratio × 100`, where `similarity_ratio` is the
Ratcliff/Obershelp similarity of the two normalized strings; the score
always lies in `[0, 100]`.  (The original claim's `round` fails: see
the counterexample.) -/
theorem C1_pronunciation_floor (e t : String) :
    (compareTexts e t).pronunciationScore
        = ⌊seqSimilarity (normalizeText e).data (normalizeText t).data * 100⌋ ∧
      0 ≤ (compareTexts e t).pronunciationScore ∧
      (compareTexts e t).pronunciationScore ≤ 100 := by
  have hr := seqSimilarity_mem_unit (normalizeText e).data (normalizeText t).data
  refine ⟨rfl, ?_, ?_⟩
  · show (0 : ℤ) ≤ ⌊seqSimilarity (normalizeText e).data (normalizeText t).data * 100⌋
    apply Int.floor_nonneg.mpr
    have := hr.1
    positivity
  · show ⌊seqSimilarity (normalizeText e).data (normalizeText t).data * 100⌋ ≤ (100 : ℤ)
    have h1 : seqSimilarity (normalizeText e).data (normalizeText t).data * 100 ≤ 100 := by
      nlinarith [hr.2]
    calc ⌊seqSimilarity (normalizeText e).data (normalizeText t).data * 100⌋
        ≤ ⌊(100 : ℚ)⌋ := Int.floor_le_floor h1
      _ = 100 := by norm_num

section RatSemireducibleSection

/- Core's `Rat.add`, `Rat.mul`, `Rat.inv`, `Rat.sub` are irreducible,
which blocks `decide` on concrete rational computations; this section
restores the default reducibility for the concrete evaluations below
(the kernel is unaffected). -/
attribute [local semireducible] Rat.add Rat.mul Rat.inv Rat.sub

/-- C1 counterexample: on expected `"abc"` and transcribed `"abcd"` the
similarity is `6/7`, the stored score is `int(600/7) = 85`, while
`round(600/7) = 86` — so `pronunciation_score == round(similarity_ratio
* 100)` is false as stated. -/
theorem C1_round_cex :
    (compareTexts ("abc") ("abcd")).pronunciationScore = 85 ∧
      round (seqSimilarity (normalizeText ("abc")).data (normalizeText ("abcd")).data * 100)
        = (86 : ℤ) := by
  constructor
  · decide
  · have hsim : seqSimilarity (normalizeText ("abc")).data (normalizeText ("abcd")).data
        = 6/7 := by decide
    rw [hsim, round_eq]
    norm_num

end RatSemireducibleSection

/-- C7: word accuracy is the matched-block total over the expected
length, lies in `[0, 1]` for every pair of word sequences, and the
empty-expected cases give `1.0` (both empty) and `0.0` (transcribed
non-empty). -/
theorem C7_word_accuracy :
    wordAccuracy [] [] = 1 ∧
      (∀ (w : String) (ws t : List String), wordAccuracy [] (w :: ws) = 0 ∧
        wordAccuracy (w :: ws) t
          = ((sumSizes (matchingBlocks (w :: ws) t) : ℕ) : ℚ) / (((w :: ws).length : ℕ) : ℚ)) ∧
      (∀ e t : List String, 0 ≤ wordAccuracy e t ∧ wordAccuracy e t ≤ 1) := by
  refine ⟨rfl, fun w ws t => ⟨rfl, ?_⟩, fun e t => ?_⟩
  · unfold wordAccuracy
    rw [if_neg (by simp)]
  · unfold wordAccuracy
    rcases e with _ | ⟨w, ws⟩
    · rcases t with _ | ⟨v, vs⟩
      · norm_num
      · rw [if_pos rfl, if_neg (by simp)]
        norm_num
    · rw [if_neg (by simp)]
      have hlen : (0 : ℚ) < (((w :: ws).length : ℕ) : ℚ) := by
        exact_mod_cast Nat.succ_pos ws.length
      constructor
      · positivity
      · rw [div_le_one hlen]
        exact_mod_cast sumSizes_matchingBlocks_le_left (w :: ws) t

/-- C2: if the transcription step fails, the endpoint still returns an
`ok` response carrying the acoustic result unchanged, with every
transcript-derived field (`transcribed_text`, `pronunciation_score`,
`similarity_ratio`, `word_accuracy`, missing/extra/mispronounced
words, advanced analysis) equal to `none`; the failure never escalates
to an error response.  (Stated for non-empty audio, `audioLen + 1`.) -/
theorem C2_transcription_failure_recoverable (audioLen : Nat) (r : AcousticResult)
    (err : String) (advanced : TranscriptionOut → Except String AdvancedOut)
    (expectedText : Option String) (dbSave : Except String Nat) :
    ∃ resp : AnalyzeResponse,
      analyzeSpeech (audioLen + 1) (Except.ok r) (Except.error err)
          advanced expectedText dbSave = Except.ok resp ∧
        resp.acoustic = r ∧
        resp.transcribedText = none ∧
        resp.pronunciationScore = none ∧
        resp.similarityRounded = none ∧
        resp.wordAccuracyRounded = none ∧
        resp.missingWords = none ∧
        resp.extraWords = none ∧
        resp.mispronouncedWords = none ∧
        resp.advancedAnalysis = none := by
  cases dbSave with
  | ok rid => exact ⟨_, rfl, rfl, rfl, rfl, rfl, rfl, rfl, rfl, rfl, rfl⟩
  | error e => exact ⟨_, rfl, rfl, rfl, rfl, rfl, rfl, rfl, rfl, rfl, rfl⟩

/-! ### C6 helper lemmas -/

/-- Every silence segment collected by the VAD walk is longer than the
100 ms floor. -/
theorem findSilenceSegments_floor (frames : List Bool) (times : List ℚ) :
    ∀ s ∈ findSilenceSegments frames times, 1/10 < s.duration := by
  unfold findSilenceSegments
  apply foldl_invariant
    (P := fun acc : VadWalkState => ∀ s ∈ acc.segs, 1/10 < s.duration)
  · simp
  · intro acc ft _ hacc
    unfold pauseStep
    by_cases hc1 : ¬ ft.1 ∧ ¬ acc.inSilence
    · rw [if_pos hc1]
      exact hacc
    · rw [if_neg hc1]
      by_cases hc2 : ft.1 ∧ acc.inSilence
      · rw [if_pos hc2]
        intro s hs
        rcases List.mem_append.mp hs with h | h
        · exact hacc s h
        · by_cases hd : 1/10 < ft.2 - acc.silenceStart
          · rw [if_pos hd] at h
            rcases List.mem_singleton.mp h with rfl
            exact hd
          · rw [if_neg hd] at h
            exact absurd h (List.not_mem_nil s)
      · rw [if_neg hc2]
        exact hacc

/-- The three VAD bands (thresholds 0.5 and 1.0) partition any segment
list. -/
theorem vad_bands_partition (segs : List PauseSegment) :
    (segs.filter (fun s => s.duration < 1/2)).length
      + (segs.filter (fun s => 1/2 ≤ s.duration ∧ s.duration < 1)).length
      + (segs.filter (fun s => 1 ≤ s.duration)).length = segs.length := by
  induction segs with
  | nil => rfl
  | cons s rest ih =>
    rw [List.filter_cons, List.filter_cons, List.filter_cons]
    by_cases h1 : s.duration < 1/2
    · have h2 : ¬ (1/2 ≤ s.duration ∧ s.duration < 1) := fun hc => absurd hc.1 (not_le.mpr h1)
      have h3 : ¬ ((1 : ℚ) ≤ s.duration) := by intro hc; linarith
      rw [if_pos (by simpa using h1), if_neg (by simpa using h2), if_neg (by simpa using h3)]
      simp only [List.length_cons]
      omega
    · by_cases h2 : s.duration < 1
      · have ha : 1/2 ≤ s.duration ∧ s.duration < 1 := ⟨not_lt.mp h1, h2⟩
        have h3 : ¬ ((1 : ℚ) ≤ s.duration) := not_le.mpr h2
        rw [if_neg (by simpa using h1), if_pos (by simpa using ha), if_neg (by simpa using h3)]
        simp only [List.length_cons]
        omega
      · have h3 : (1 : ℚ) ≤ s.duration := not_lt.mp h2
        have ha : ¬ (1/2 ≤ s.duration ∧ s.duration < 1) := fun hc => absurd hc.2 h2
        rw [if_neg (by simpa using h1), if_neg (by simpa using ha), if_pos (by simpa using h3)]
        simp only [List.length_cons]
        omega

/-- The four v2 bands (thresholds 0.5, 1.0 and 2.0) partition any pause
list. -/
theorem v2_bands_partition (pauses : List ℚ) :
    (pauses.filter (fun p => p < 1/2)).length
      + (pauses.filter (fun p => 1/2 ≤ p ∧ p < 1)).length
      + (pauses.filter (fun p => 1 ≤ p ∧ p < 2)).length
      + (pauses.filter (fun p => 2 ≤ p)).length = pauses.length := by
  induction pauses with
  | nil => rfl
  | cons p rest ih =>
    rw [List.filter_cons, List.filter_cons, List.filter_cons, List.filter_cons]
    by_cases h1 : p < 1/2
    · have h2 : ¬ (1/2 ≤ p ∧ p < 1) := fun hc => absurd hc.1 (not_le.mpr h1)
      have h3 : ¬ ((1 : ℚ) ≤ p ∧ p < 2) := by intro hc; linarith [hc.1]
      have h4 : ¬ ((2 : ℚ) ≤ p) := by intro hc; linarith
      rw [if_pos (by simpa using h1), if_neg (by simpa using h2), if_neg (by simpa using h3),
        if_neg (by simpa using h4)]
      simp only [List.length_cons]
      omega
    · by_cases h2 : p < 1
      · have ha : 1/2 ≤ p ∧ p < 1 := ⟨not_lt.mp h1, h2⟩
        have h3 : ¬ ((1 : ℚ) ≤ p ∧ p < 2) := by intro hc; linarith [hc.1]
        have h4 : ¬ ((2 : ℚ) ≤ p) := by intro hc; linarith
        rw [if_neg (by simpa using h1), if_pos (by simpa using ha), if_neg (by simpa using h3),
          if_neg (by simpa using h4)]
        simp only [List.length_cons]
        omega
      · by_cases h3 : p < 2
        · have ha : (1 : ℚ) ≤ p ∧ p < 2 := ⟨not_lt.mp h2, h3⟩
          have hb : ¬ (1/2 ≤ p ∧ p < 1) := fun hc => absurd hc.2 h2
          have h4 : ¬ ((2 : ℚ) ≤ p) := not_le.mpr h3
          rw [if_neg (by simpa using h1), if_neg (by simpa using hb), if_pos (by simpa using ha),
            if_neg (by simpa using h4)]
          simp only [List.length_cons]
          omega
        · have h4 : (2 : ℚ) ≤ p := not_lt.mp h3
          have hb : ¬ (1/2 ≤ p ∧ p < 1) := fun hc => absurd hc.2 h2
          have hc : ¬ ((1 : ℚ) ≤ p ∧ p < 2) := fun hx => absurd hx.2 h3
          rw [if_neg (by simpa using h1), if_neg (by simpa using hb), if_neg (by simpa using hc),
            if_pos (by simpa using h4)]
          simp only [List.length_cons]
          omega

/-- C6 (amended): the VAD-mask pause analyzer collects only silence
runs strictly longer than 100 ms and classifies them into *three*
bands — short `< 0.5 s`, medium `[0.5, 1.0)`, long `≥ 1.0 s` — which
partition the collected set (no 2.0 s threshold, no extended band);
separately, the segment-gap pause analyzer (v2 service) collects only
gaps of at least 250 ms and classifies them into four bands with the
thresholds 0.5 s, 1.0 s and 2.0 s, which partition its pause set. -/
theorem C6_pause_bands (frames : List Bool) (times : List ℚ) (speechFrac : ℚ)
    (totalDuration : ℚ) (segments : List Seg) :
    ((findSilenceSegments frames times).countP (fun s => decide (s.duration ≤ 1/10)) = 0) ∧
      (analyzePausesVad frames times speechFrac).shortPauses
        = ((findSilenceSegments frames times).filter (fun s => s.duration < 1/2)).length ∧
      (analyzePausesVad frames times speechFrac).mediumPauses
        = ((findSilenceSegments frames times).filter
            (fun s => 1/2 ≤ s.duration ∧ s.duration < 1)).length ∧
      (analyzePausesVad frames times speechFrac).longPauses
        = ((findSilenceSegments frames times).filter (fun s => 1 ≤ s.duration)).length ∧
      (analyzePausesVad frames times speechFrac).shortPauses
          + (analyzePausesVad frames times speechFrac).mediumPauses
          + (analyzePausesVad frames times speechFrac).longPauses
        = (analyzePausesVad frames times speechFrac).totalPauses ∧
      ((extractPauses (1/4) segments).countP (fun g => decide (g < 1/4)) = 0) ∧
      (analyzePausesV2 totalDuration segments).shortPauses
          + (analyzePausesV2 totalDuration segments).mediumPauses
          + (analyzePausesV2 totalDuration segments).longPauses
          + (analyzePausesV2 totalDuration segments).extendedPauses
        = (analyzePausesV2 totalDuration segments).totalPauses := by
  refine ⟨?_, rfl, rfl, rfl, ?_, ?_, ?_⟩
  · rw [List.countP_eq_zero]
    intro s hs
    have := findSilenceSegments_floor frames times s hs
    simp only [decide_eq_true_eq]
    intro hc
    linarith
  · exact vad_bands_partition (findSilenceSegments frames times)
  · rw [List.countP_eq_zero]
    intro g hg
    unfold extractPauses at hg
    by_cases hlen : segments.length < 2
    · rw [if_pos hlen] at hg
      exact absurd hg (List.not_mem_nil g)
    · rw [if_neg hlen] at hg
      have := (List.mem_filter.mp hg).2
      simp only [decide_eq_true_eq] at this ⊢
      intro hc
      linarith
  · exact v2_bands_partition (extractPauses (1/4) segments)

/-! ### C4 helper lemmas -/

/-- Every window-local rate is positive: a rate is only produced for a
window of at least 2 onsets with positive duration. -/
theorem localRates_pos (onsets : List ℚ) : ∀ r ∈ localRates onsets, 0 < r := by
  intro r hr
  unfold localRates at hr
  rcases List.mem_filterMap.mp hr with ⟨i, hi, hf⟩
  dsimp only at hf
  by_cases h2 : ((onsets.drop i).take 15).length < 2
  · rw [if_pos h2] at hf
    exact absurd hf (by simp)
  · rw [if_neg h2] at hf
    by_cases hd : 0 < ((onsets.drop i).take 15).getLast?.getD 0
        - ((onsets.drop i).take 15).head?.getD 0
    · rw [if_pos hd] at hf
      have hr2 := Option.some.inj hf
      rw [← hr2]
      have hlen : 0 < ((onsets.drop i).take 15).length := by omega
      have hlenq : (0 : ℚ) < (((onsets.drop i).take 15).length : ℚ) := by exact_mod_cast hlen
      positivity
    · rw [if_neg hd] at hf
      exact absurd hf (by simp)

/-- With at least one (positive) local rate, the mean rate is positive. -/
theorem pacingMean_pos (onsets : List ℚ) (h : localRates onsets ≠ []) :
    0 < pacingMean (localRates onsets) := by
  unfold pacingMean
  apply div_pos
  · exact List.sum_pos _ (localRates_pos onsets) h
  · exact_mod_cast List.length_pos.mpr h

/-- C4: with fewer than 20 onsets the local-pacing analysis
short-circuits to consistency 100 with no significant variation;
otherwise (when the windows produce at least one local rate) the
consistency score is `max 0 (100 − 3·vc)` and significant variation is
flagged exactly when `vc > 20`, where `vc = std/mean × 100` over the
window-local rates. -/
theorem C4_local_pacing (onsets : List ℚ) :
    (onsets.length < 20 → analyzeLocalPacing onsets = ⟨100, False, [], 0⟩) ∧
      (20 ≤ onsets.length → localRates onsets ≠ [] →
        (analyzeLocalPacing onsets).consistencyScore
            = max 0 (100 - 3 * (pacingStd (localRates onsets)
                / ((pacingMean (localRates onsets) : ℚ) : ℝ) * 100)) ∧
          ((analyzeLocalPacing onsets).hasSignificantVariation ↔
            20 < pacingStd (localRates onsets)
                / ((pacingMean (localRates onsets) : ℚ) : ℝ) * 100) ∧
          (analyzeLocalPacing onsets).localWindowRates = localRates onsets) := by
  constructor
  · intro h
    unfold analyzeLocalPacing
    rw [if_pos h]
  · intro h hr
    have hmean := pacingMean_pos onsets hr
    have hvc : variationCoefficientOf (localRates onsets)
        = pacingStd (localRates onsets)
            / ((pacingMean (localRates onsets) : ℚ) : ℝ) * 100 := by
      unfold variationCoefficientOf
      rw [if_pos hmean]
    unfold analyzeLocalPacing
    rw [if_neg (not_lt.mpr h)]
    dsimp only
    rw [if_neg hr]
    refine ⟨?_, ?_, rfl⟩
    · show max 0 (100 - variationCoefficientOf (localRates onsets) * 3) = _
      rw [hvc]
      congr 1
      ring
    · show 20 < variationCoefficientOf (localRates onsets) ↔ _
      rw [hvc]

section RatEvalSection

/- Concrete evaluations below need `decide` through rational
arithmetic; see the note on the first such section. -/
attribute [local semireducible] Rat.add Rat.mul Rat.inv Rat.sub

/-- C6 counterexample: a single 2.5-second silence run.  Under the
claim's thresholds (0.5, 1.0, 2.0) a 2.5 s pause is *extended* and the
long band `[1.0, 2.0)` is empty, but the analyzer reports
`long_pauses = 1` — so the claimed four-band classification is false
for the VAD pause analyzer. -/
theorem C6_vad_bands_cex :
    (analyzePausesVad [true, false, true] [0, 0, 5/2] (1/2)).longPauses = 1 ∧
      ((findSilenceSegments [true, false, true] [0, 0, 5/2]).filter
          (fun s => 1 ≤ s.duration ∧ s.duration < 2)).length = 0 := by
  constructor
  · decide
  · decide

/-- The 21 evenly spaced onset times used by the C4 witness. -/
def pacingWitnessOnsets : List ℚ :=
  [0, 1, 2, 3, 4, 5, 6, 7, 8, 9, 10, 11, 12, 13, 14, 15, 16, 17, 18, 19, 20]

/-- Witness for C4: a 1-onset signal takes the short-circuit branch,
and 21 evenly spaced onsets (one full window) take the scored branch. -/
theorem C4_local_pacing_witness :
    analyzeLocalPacing [(0 : ℚ)] = ⟨100, False, [], 0⟩ ∧
      ((analyzeLocalPacing pacingWitnessOnsets).consistencyScore
          = max 0 (100 - 3 * (pacingStd (localRates pacingWitnessOnsets)
              / ((pacingMean (localRates pacingWitnessOnsets) : ℚ) : ℝ) * 100)) ∧
        ((analyzeLocalPacing pacingWitnessOnsets).hasSignificantVariation ↔
          20 < pacingStd (localRates pacingWitnessOnsets)
              / ((pacingMean (localRates pacingWitnessOnsets) : ℚ) : ℝ) * 100) ∧
        (analyzeLocalPacing pacingWitnessOnsets).localWindowRates
          = localRates pacingWitnessOnsets) :=
  ⟨(C4_local_pacing [(0 : ℚ)]).1 (by decide),
    (C4_local_pacing pacingWitnessOnsets).2 (by decide) (by decide)⟩

end RatEvalSection

/-! ## C8: spec-side view of the difference walk -/

/-- Spec-side best similarity of an expected word over the replaced
transcribed span: the maximum of the word-level string ratios
(0 for an empty span). -/
def specBestSim (w : String) (chunk : List String) : ℚ :=
  (chunk.map (fun tw => seqSimilarity w.data tw.data)).foldr max 0

/-- Spec-side best-similarity candidate: the first word of the span
attaining the maximum ratio. -/
def specBestHeard (w : String) (chunk : List String) : Option String :=
  chunk.find? (fun tw => seqSimilarity w.data tw.data = specBestSim w chunk)

/-- One opcode of the difference walk as the specification words it
(§4.8): `delete` → missing, `insert` → extra, and for each expected
word of a `replace` span, mispronounced with the best-similarity
candidate exactly when the best similarity exceeds 0.5, missing
otherwise. -/
def specDiffStep (e t : List String) (acc : Differences) (op : Opcode) : Differences :=
  match op.tag with
  | Tag.delete =>
    { acc with missing := acc.missing ++ (e.drop op.i1).take (op.i2 - op.i1) }
  | Tag.insert =>
    { acc with extra := acc.extra ++ (t.drop op.j1).take (op.j2 - op.j1) }
  | Tag.replace =>
    let echunk := (e.drop op.i1).take (op.i2 - op.i1)
    let tchunk := (t.drop op.j1).take (op.j2 - op.j1)
    echunk.foldl
      (fun acc w =>
        if 1/2 < specBestSim w tchunk then
          { acc with mispronounced :=
              acc.mispronounced ++
                [⟨w, (specBestHeard w tchunk).getD "", roundTo 2 (specBestSim w tchunk)⟩] }
        else
          { acc with missing := acc.missing ++ [w] })
      acc
  | Tag.equal => acc

/-- The difference walk as the specification words it. -/
def specFindDifferences (e t : List String) : Differences :=
  (getOpcodes e t).foldl (specDiffStep e t) ⟨[], [], []⟩

/-! ### Characterizing the best-candidate scan -/

theorem foldr_max_swap (l : List ℚ) (a c : ℚ) :
    l.foldr max (max a c) = max c (l.foldr max a) := by
  induction l with
  | nil => exact max_comm a c
  | cons x xs ih =>
    simp only [List.foldr_cons, ih]
    rw [max_left_comm]

theorem le_foldr_max (l : List ℚ) (a : ℚ) : a ≤ l.foldr max a := by
  induction l with
  | nil => exact le_refl a
  | cons x xs ih => exact le_trans ih (le_max_right x _)

theorem foldr_max_absorb {l : List ℚ} {a x : ℚ} (h : a ≤ x) :
    l.foldr max x = max x (l.foldr max a) := by
  have h1 : x = max a x := (max_eq_right h).symm
  calc l.foldr max x = l.foldr max (max a x) := by rw [← h1]
    _ = max x (l.foldr max a) := foldr_max_swap l a x

/-- The running value of the best-candidate scan is the maximum of the
initial value and the candidate ratios. -/
theorem bestScan_snd (f : String → ℚ) :
    ∀ (chunk : List String) (b : Option String × ℚ),
      (chunk.foldl (fun best tw => if best.2 < f tw then (some tw, f tw) else best) b).2
        = (chunk.map f).foldr max b.2 := by
  intro chunk
  induction chunk with
  | nil => intro b; rfl
  | cons tw rest ih =>
    intro b
    rw [List.foldl_cons, List.map_cons, List.foldr_cons]
    by_cases h : b.2 < f tw
    · rw [if_pos h, ih]
      exact foldr_max_absorb (le_of_lt h)
    · rw [if_neg h, ih]
      exact (max_eq_right (le_trans (not_lt.mp h) (le_foldr_max _ _))).symm

/-- The candidate kept by the best-candidate scan is the first one
attaining the maximum ratio (the initial candidate when nothing
strictly exceeds the initial value). -/
theorem bestScan_fst (f : String → ℚ) (hf : ∀ tw, 0 ≤ f tw) :
    ∀ (chunk : List String) (b : Option String × ℚ), 0 ≤ b.2 →
      (chunk.foldl (fun best tw => if best.2 < f tw then (some tw, f tw) else best) b).1
        = if (chunk.map f).foldr max 0 ≤ b.2 then b.1
          else chunk.find? (fun tw => f tw = (chunk.map f).foldr max 0) := by
  intro chunk
  induction chunk with
  | nil =>
    intro b hb
    rw [if_pos (by simpa using hb)]
    rfl
  | cons tw rest ih =>
    intro b hb
    rw [List.foldl_cons, List.map_cons, List.foldr_cons]
    by_cases h : b.2 < f tw
    · rw [if_pos h, ih ((some tw, f tw)) (hf tw)]
      have houter : ¬ (max (f tw) ((rest.map f).foldr max 0) ≤ b.2) :=
        not_le.mpr (lt_of_lt_of_le h (le_max_left _ _))
      rw [if_neg houter]
      by_cases hMr : (rest.map f).foldr max 0 ≤ f tw
      · rw [if_pos hMr]
        have hMc : max (f tw) ((rest.map f).foldr max 0) = f tw := max_eq_left hMr
        rw [List.find?_cons_of_pos _ (by simp [hMc])]
      · have hlt : f tw < (rest.map f).foldr max 0 := not_le.mp hMr
        rw [if_neg hMr]
        have hMc : max (f tw) ((rest.map f).foldr max 0) = (rest.map f).foldr max 0 :=
          max_eq_right (le_of_lt hlt)
        rw [List.find?_cons_of_neg _ (by simp [hMc, ne_of_lt hlt])]
        simp only [hMc]
    · have hftw : f tw ≤ b.2 := not_lt.mp h
      rw [if_neg h, ih b hb]
      by_cases hMr : (rest.map f).foldr max 0 ≤ b.2
      · rw [if_pos hMr, if_pos (max_le hftw hMr)]
      · have hlt : b.2 < (rest.map f).foldr max 0 := not_le.mp hMr
        have hMc : max (f tw) ((rest.map f).foldr max 0) = (rest.map f).foldr max 0 :=
          max_eq_right (le_trans hftw (le_of_lt hlt))
        have houter : ¬ (max (f tw) ((rest.map f).foldr max 0) ≤ b.2) := by
          rw [hMc]
          exact hMr
        rw [if_neg hMr, if_neg houter]
        have hne : f tw ≠ max (f tw) ((rest.map f).foldr max 0) := by
          rw [hMc]
          exact ne_of_lt (lt_of_le_of_lt hftw hlt)
        rw [List.find?_cons_of_neg _ (by simp [hne])]
        simp only [hMc]

theorem bestCandidate_snd (w : String) (chunk : List String) :
    (bestCandidate w chunk).2 = specBestSim w chunk :=
  bestScan_snd (fun tw => seqSimilarity w.data tw.data) chunk (none, 0)

theorem specBestSim_nonneg (w : String) (chunk : List String) :
    0 ≤ specBestSim w chunk :=
  le_foldr_max _ 0

theorem foldr_max_le {l : List ℚ} {a c : ℚ} (ha : a ≤ c) (h : ∀ x ∈ l, x ≤ c) :
    l.foldr max a ≤ c := by
  induction l with
  | nil => exact ha
  | cons x xs ih =>
    exact max_le (h x (List.mem_cons_self x xs))
      (ih (fun y hy => h y (List.mem_cons_of_mem x hy)))

theorem specBestSim_le_one (w : String) (chunk : List String) :
    specBestSim w chunk ≤ 1 := by
  apply foldr_max_le (by norm_num)
  intro x hx
  rcases List.mem_map.mp hx with ⟨tw, _, rfl⟩
  exact (seqSimilarity_mem_unit w.data tw.data).2

theorem bestCandidate_fst (w : String) (chunk : List String)
    (h : 0 < specBestSim w chunk) :
    (bestCandidate w chunk).1 = specBestHeard w chunk := by
  have hf : ∀ tw : String, 0 ≤ seqSimilarity w.data tw.data :=
    fun tw => (seqSimilarity_mem_unit w.data tw.data).1
  have hb := bestScan_fst (fun tw => seqSimilarity w.data tw.data) hf chunk
    (none, 0) (le_refl 0)
  show (chunk.foldl (fun best tw =>
      if best.2 < seqSimilarity w.data tw.data
      then (some tw, seqSimilarity w.data tw.data) else best) (none, 0)).1 = _
  rw [hb]
  have hcond : ¬ (List.foldr max 0
      (List.map (fun tw => seqSimilarity w.data tw.data) chunk)
        ≤ ((none : Option String), (0 : ℚ)).2) := not_le.mpr h
  rw [if_neg hcond]
  rfl

theorem foldr_max_attained (l : List ℚ) (a : ℚ) :
    l.foldr max a = a ∨ ∃ x ∈ l, l.foldr max a = x := by
  induction l with
  | nil => exact Or.inl rfl
  | cons x xs ih =>
    rcases le_total (xs.foldr max a) x with h | h
    · exact Or.inr ⟨x, List.mem_cons_self x xs, max_eq_left h⟩
    · rw [List.foldr_cons, max_eq_right h]
      rcases ih with h2 | ⟨y, hy, h2⟩
      · exact Or.inl h2
      · exact Or.inr ⟨y, List.mem_cons_of_mem x hy, h2⟩

theorem seqSimilarity_nil_right (l : List Char) (h : l ≠ []) :
    seqSimilarity l ([] : List Char) = 0 := by
  unfold seqSimilarity
  have hlen : l.length + ([] : List Char).length ≠ 0 := by
    simpa using fun hc => h (List.length_eq_zero.mp hc)
  rw [if_neg hlen]
  have hm := sumSizes_matchingBlocks_le_right l ([] : List Char)
  simp only [List.length_nil, Nat.le_zero] at hm
  rw [hm]
  norm_num

/-- For a non-empty expected word, the code's branch condition
(truthy best match and ratio above 0.5) holds exactly when the
spec-side best similarity exceeds 0.5. -/
theorem diffCond_iff (w : String) (hw : w ≠ "") (chunk : List String) :
    ((optStrTruthy (bestCandidate w chunk).1 = true) ∧ 1/2 < (bestCandidate w chunk).2)
      ↔ 1/2 < specBestSim w chunk := by
  rw [bestCandidate_snd]
  constructor
  · exact fun h => h.2
  · intro h
    refine ⟨?_, h⟩
    have hpos : 0 < specBestSim w chunk := lt_trans (by norm_num) h
    rw [bestCandidate_fst w chunk hpos]
    unfold specBestHeard
    rcases hfind : chunk.find? (fun tw => seqSimilarity w.data tw.data = specBestSim w chunk)
      with _ | tw
    · exfalso
      rcases foldr_max_attained (chunk.map (fun tw => seqSimilarity w.data tw.data)) 0 with
        hz | ⟨x, hx, hxx⟩
      · have : specBestSim w chunk = 0 := hz
        rw [this] at hpos
        exact lt_irrefl 0 hpos
      · rcases List.mem_map.mp hx with ⟨tw, htw, rfl⟩
        have : chunk.find? (fun tw => seqSimilarity w.data tw.data = specBestSim w chunk)
            ≠ none := by
          apply Option.isSome_iff_ne_none.mp
          rw [List.find?_isSome]
          exact ⟨tw, htw, by simp [specBestSim, hxx.symm]⟩
        exact this hfind
    · have hmem := List.find?_some hfind
      have hval : seqSimilarity w.data tw.data = specBestSim w chunk := by
        simpa using hmem
      have htw_ne : tw ≠ "" := by
        intro hcon
        rw [hcon] at hval
        have hwd : w.data ≠ [] := by
          intro hd
          exact hw (by cases w; simp at hd; simp [hd])
        rw [show ("" : String).data = ([] : List Char) from rfl] at hval
        rw [seqSimilarity_nil_right w.data hwd] at hval
        rw [← hval] at h
        norm_num at h
      rw [hfind]
      simp [optStrTruthy, htw_ne]

theorem foldl_congr_mem {α β : Type} (f g : β → α → β) (l : List α)
    (h : ∀ b a, a ∈ l → f b a = g b a) : ∀ b, l.foldl f b = l.foldl g b := by
  induction l with
  | nil => intro b; rfl
  | cons x xs ih =>
    intro b
    rw [List.foldl_cons, List.foldl_cons, h b x (List.mem_cons_self x xs)]
    exact ih (fun b a ha => h b a (List.mem_cons_of_mem x ha)) _

/-- When the expected words are non-empty, each step of the code's
difference walk agrees with the spec-side step. -/
theorem diffStep_eq_spec (e t : List String) (he : ("") ∉ e) (acc : Differences)
    (op : Opcode) : diffStep e t acc op = specDiffStep e t acc op := by
  obtain ⟨tag, i1, i2, j1, j2⟩ := op
  cases tag with
  | delete => rfl
  | insert => rfl
  | equal => rfl
  | replace =>
    show ((e.drop i1).take (i2 - i1)).foldl _ acc
      = ((e.drop i1).take (i2 - i1)).foldl _ acc
    apply foldl_congr_mem
    intro b w hw
    have hw_mem : w ∈ e := List.drop_subset i1 e (List.take_subset (i2 - i1) (e.drop i1) hw)
    have hw_ne : w ≠ "" := fun hcon => he (hcon ▸ hw_mem)
    dsimp only
    by_cases hcond : 1/2 < specBestSim w ((t.drop j1).take (j2 - j1))
    · have hc := (diffCond_iff w hw_ne ((t.drop j1).take (j2 - j1))).mpr hcond
      rw [if_pos hc, if_pos hcond]
      have hpos : 0 < specBestSim w ((t.drop j1).take (j2 - j1)) :=
        lt_trans (by norm_num) hcond
      rw [bestCandidate_fst w _ hpos, bestCandidate_snd]
    · have hc : ¬ ((optStrTruthy (bestCandidate w ((t.drop j1).take (j2 - j1))).1 = true)
          ∧ 1/2 < (bestCandidate w ((t.drop j1).take (j2 - j1))).2) :=
        fun hcc => hcond ((diffCond_iff w hw_ne _).mp hcc)
      rw [if_neg hc, if_neg hcond]

theorem roundTo2_pos {r : ℚ} (h : 1/2 < r) : 0 < roundTo 2 r := by
  unfold roundTo
  apply div_pos _ (by norm_num)
  have h50 : (50 : ℤ) ≤ round (r * 10 ^ 2) := by
    rw [round_eq]
    apply Int.le_floor.mpr
    push_cast
    nlinarith
  have : (0 : ℤ) < round (r * 10 ^ 2) := lt_of_lt_of_le (by norm_num) h50
  exact_mod_cast this

theorem roundTo2_le_one {r : ℚ} (h : r ≤ 1) : roundTo 2 r ≤ 1 := by
  unfold roundTo
  rw [div_le_one (by norm_num)]
  have h100 : round (r * 10 ^ 2) ≤ 100 := by
    rw [round_eq]
    calc ⌊r * 10 ^ 2 + 1/2⌋ ≤ ⌊(201 : ℚ)/2⌋ := Int.floor_le_floor (by nlinarith)
      _ = 100 := by norm_num
  exact_mod_cast h100

/-- C8 (amended): the word-level difference walk matches the
spec-side walk — every expected word of a `replace` span is recorded
as mispronounced with the (first) best-similarity candidate exactly
when the best similarity exceeds 0.5, and counted missing otherwise —
provided the expected words are non-empty (as produced by `.split()`);
and every recorded 2-decimal-rounded similarity lies in `(0, 1]` (it
can equal 1.00: see the counterexample). -/
theorem C8_replace_span (e t : List String) (he : ("") ∉ e) :
    findDifferences e t = specFindDifferences e t ∧
      ∀ m ∈ (findDifferences e t).mispronounced,
        0 < m.similarity ∧ m.similarity ≤ 1 := by
  constructor
  · unfold findDifferences specFindDifferences
    exact foldl_congr_mem _ _ _ (fun b op _ => diffStep_eq_spec e t he b op) _
  · unfold findDifferences
    apply foldl_invariant
      (P := fun acc : Differences =>
        ∀ m ∈ acc.mispronounced, 0 < m.similarity ∧ m.similarity ≤ 1)
    · simp
    · intro acc op _ hacc
      obtain ⟨tag, i1, i2, j1, j2⟩ := op
      cases tag with
      | delete => exact hacc
      | insert => exact hacc
      | equal => exact hacc
      | replace =>
        show ∀ m ∈ (((e.drop i1).take (i2 - i1)).foldl _ acc).mispronounced, _
        apply foldl_invariant
          (P := fun acc : Differences =>
            ∀ m ∈ acc.mispronounced, 0 < m.similarity ∧ m.similarity ≤ 1)
        · exact hacc
        · intro b w _ hb
          dsimp only
          by_cases hc : (optStrTruthy (bestCandidate w ((t.drop j1).take (j2 - j1))).1 = true)
              ∧ 1/2 < (bestCandidate w ((t.drop j1).take (j2 - j1))).2
          · rw [if_pos hc]
            intro m hm
            rcases List.mem_append.mp hm with hm | hm
            · exact hb m hm
            · rcases List.mem_singleton.mp hm with rfl
              dsimp only
              have hgt : 1/2 < (bestCandidate w ((t.drop j1).take (j2 - j1))).2 := hc.2
              rw [bestCandidate_snd] at hgt
              rw [bestCandidate_snd]
              exact ⟨roundTo2_pos hgt, roundTo2_le_one (specBestSim_le_one w _)⟩
          · rw [if_neg hc]
            exact hb

/-- Witness for C8 at the spec's own scenario words: expected
`["roupa"]`, transcribed `["ropa"]`. -/
theorem C8_replace_span_witness :
    findDifferences [("roupa")] [("ropa")] = specFindDifferences [("roupa")] [("ropa")] ∧
      ∀ m ∈ (findDifferences [("roupa")] [("ropa")]).mispronounced,
        0 < m.similarity ∧ m.similarity ≤ 1 :=
  C8_replace_span [("roupa")] [("ropa")] (by decide)

/-! ### C8 counterexample: a recorded similarity can round up to 1.00 -/

theorem bestCandidate_singleton (w tw : String) :
    bestCandidate w [tw] =
      (if (0 : ℚ) < seqSimilarity w.data tw.data
       then (some tw, seqSimilarity w.data tw.data)
       else (none, 0)) := rfl

theorem diffStep_replace_single (e t : String) (acc : Differences) :
    diffStep [e] [t] acc ⟨Tag.replace, 0, 1, 0, 1⟩ =
      (if (optStrTruthy (bestCandidate e [t]).1 = true) ∧ 1/2 < (bestCandidate e [t]).2
       then { acc with mispronounced := acc.mispronounced ++
          [⟨e, (bestCandidate e [t]).1.getD (""), roundTo 2 (bestCandidate e [t]).2⟩] }
       else { acc with missing := acc.missing ++ [e] }) := rfl

/-- C8 counterexample: for the expected word `'a' * 101` against the
transcribed word `'a' * 100` the word-level ratio is `200/201 ≈ 0.995`,
and the recorded 2-decimal similarity is exactly `1.00` — so the claim
that every mispronounced entry carries a similarity strictly between 0
and 1 is false as stated. -/
theorem C8_similarity_one_cex :
    (findDifferences [String.mk (List.replicate 101 'a')]
        [String.mk (List.replicate 100 'a')]).mispronounced.map (fun m => m.similarity)
      = [1] := by
  have hsim : seqSimilarity (String.mk (List.replicate 101 'a')).data
      (String.mk (List.replicate 100 'a')).data
        = 2 * (100 : ℚ) / ((101 : ℚ) + (100 : ℚ)) := by
    show seqSimilarity (List.replicate 101 'a') (List.replicate 100 'a') = _
    exact seqSimilarity_replicate ('a') 101 100 (by norm_num) (by norm_num)
  have hround : roundTo 2 (2 * (100 : ℚ) / ((101 : ℚ) + (100 : ℚ))) = 1 := by
    rw [roundTo, round_eq]
    norm_num
  have hops : getOpcodes [String.mk (List.replicate 101 'a')]
      [String.mk (List.replicate 100 'a')] = [⟨Tag.replace, 0, 1, 0, 1⟩] := by decide
  have htru : optStrTruthy (some (String.mk (List.replicate 100 'a'))) = true := by decide
  unfold findDifferences
  rw [hops, List.foldl_cons, List.foldl_nil, diffStep_replace_single,
    bestCandidate_singleton, hsim,
    if_pos (by norm_num : (0 : ℚ) < 2 * (100 : ℚ) / ((101 : ℚ) + (100 : ℚ)))]
  rw [if_pos ⟨by rw [htru], by norm_num⟩]
  rw [hround]
  rfl

end VoiceMeter
